import Mathlib

/-!
Formal model of the lls language server (`src/main.rs` of jeffa5/lls).

The development shallowly embeds the dispatch loop (`Server::serve`), the
cursor-to-word extraction (`get_word`) and the rendering code
(`Dict::render_hover`, `Dict::all_info`).  External collaborators
(`lls_lib::wordnet`, the LSP transport, the filesystem, the Unicode tables of
the Rust standard library) are modelled by explicit data: functions for the
wordnet resolver and the filesystem, and a pair of character predicates for
the Unicode operations.  Rust panics (`unwrap` on a failing value) are
modelled by `Option.none` results of the embedded functions.
-/

/-- Character operations used by the word locator.  The Rust source calls
`char::is_alphabetic` and `char::to_lowercase`, Unicode-table functions of
the Rust standard library (external to this repository).  They are abstracted
as a structure so that the theorems hold for any such pair; `rustCharOps`
below is a concrete instance used for evaluation on ASCII inputs, where it
agrees with the Rust functions. -/
structure CharOps where
  isAlphabetic : Char → Bool
  toLowercase : Char → List Char

/-- Concrete character operations agreeing with Rust's on ASCII data. -/
def rustCharOps : CharOps where
  isAlphabetic := Char.isAlpha
  toLowercase := fun c => [c.toLower]

/-- Scanning loop of `get_word` (src/main.rs lines 384-413).  State carried
through the `for (i, c) in line.chars().enumerate()` loop: the accumulated
`current_word` and the `found` flag.  Each arm mirrors the Rust branches: an
alphabetic character extends `current_word` with its lowercase expansion and
sets `found` when the loop index equals the cursor; a non-alphabetic
character returns `current_word` if `found` is already set, otherwise clears
`current_word`, sets `found` when the index equals the cursor and in that
case returns the (now empty) `current_word`. -/
def getWordLoop (ops : CharOps) (cursor : Nat) :
    List Char → Nat → List Char → Bool → Option (List Char)
  | [], _, current_word, found => if found then some current_word else none
  | c :: rest, i, current_word, found =>
    if ops.isAlphabetic c then
      getWordLoop ops cursor rest (i + 1)
        (current_word ++ ops.toLowercase c) (found || (i == cursor))
    else if found then
      some current_word
    else if i == cursor then
      some []
    else
      getWordLoop ops cursor rest (i + 1) [] false

/-- Word extraction from a single line: the loop of `get_word` started on the
line's characters with index `0`, empty accumulator and `found = false`,
followed by the end-of-line `if found` check (src/main.rs lines 407-412). -/
def get_word_line (ops : CharOps) (line : List Char) (cursor : Nat) :
    Option (List Char) :=
  getWordLoop ops cursor line 0 [] false

/-- Position parameter of a hover / goto-definition request
(`lsp_types::TextDocumentPositionParams`): document identifier plus
zero-based line and character numbers. -/
structure TextDocumentPosition where
  uri : String
  line : Nat
  character : Nat
deriving DecidableEq

/-- Full `get_word` (src/main.rs lines 373-413).  The filesystem is a map
from a document identifier to the outcome of `File::open` followed by
`BufRead::lines`: `none` when opening the file fails (the source calls
`.unwrap()` on the open result, a panic, modelled by the outer `none`);
otherwise the list of per-line read results, an `Except.error` entry being a
line whose read failed.  A missing line (`nth` returning `None`) and a failed
line read both return `None` from the Rust function, modelled as
`some none`. -/
def get_word (ops : CharOps)
    (fs : String → Option (List (Except Unit (List Char))))
    (tdp : TextDocumentPosition) : Option (Option String) :=
  match fs tdp.uri with
  | none => none
  | some ls =>
    match ls.get? tdp.line with
    | none => some none
    | some (Except.error _) => some none
    | some (Except.ok l) =>
      some ((get_word_line ops l tdp.character).map fun cs => String.mk cs)

/-- Specification-side definition: the maximal run of contiguous alphabetic
characters of `l` containing index `k` — the alphabetic characters
immediately before `k` (read off by taking alphabetic characters backwards
from position `k`) followed by the alphabetic characters from position `k`
onwards. -/
def maxAlphaRun (isA : Char → Bool) (l : List Char) (k : Nat) : List Char :=
  (((l.take k).reverse.takeWhile isA).reverse) ++ ((l.drop k).takeWhile isA)

/-- Lowercase case-folding of a list of characters with multi-character
expansion: each character is replaced by its lowercase expansion and the
results are concatenated, exactly what the accumulation loop of `get_word`
does to the characters of a run. -/
def lowerFlat (ops : CharOps) (l : List Char) : List Char :=
  (l.map ops.toLowercase).flatten

/-- Modelled from the spec: part of speech, "a small closed enumeration
(noun, verb, adjective, adverb, …) with a canonical iteration order", from
`lls_lib::wordnet::PartOfSpeech`, whose source is not part of this
repository's `src/`. -/
inductive PartOfSpeech
  | noun
  | verb
  | adjective
  | adverb
deriving DecidableEq

/-- Modelled from the spec: the canonical iteration order of
`PartOfSpeech::iter()` used by the rendering loop. -/
def PartOfSpeech.iter : List PartOfSpeech :=
  [.noun, .verb, .adjective, .adverb]

/-- Modelled from the spec: the textual form of a part of speech used by the
`Display` implementation of `lls_lib::wordnet::PartOfSpeech`. -/
def PartOfSpeech.display : PartOfSpeech → String
  | .noun => "noun"
  | .verb => "verb"
  | .adjective => "adjective"
  | .adverb => "adverb"

/-- Modelled from the spec: the closed enumeration of relation kinds of
`lls_lib::wordnet::Relation` ("explicit relation kinds include at least
Antonym and other semantic links such as hypernym/hyponym"). -/
inductive Relation
  | antonym
  | hypernym
  | hyponym
deriving DecidableEq

/-- Modelled from the spec: deterministic ordering of relation kinds, the
key order of the `BTreeMap` used in `all_info`. -/
def relKinds : List Relation :=
  [.antonym, .hypernym, .hyponym]

/-- Modelled from the spec: textual form of a relation kind (`Display` of
`lls_lib::wordnet::Relation`). -/
def Relation.display : Relation → String
  | .antonym => "antonym"
  | .hypernym => "hypernym"
  | .hyponym => "hyponym"

/-- Typed relation of a sense: kind plus the target's durable key
(part of speech, database offset).  A relation never embeds the target's
data. -/
structure RelationRef where
  relation : Relation
  part_of_speech : PartOfSpeech
  synset_offset : Nat
deriving DecidableEq

/-- Modelled from the spec: a sense record of `lls_lib::wordnet::SynSet`:
lemma strings, free-text definition, part of speech, typed relations. -/
structure SynSet where
  words : List String
  definition : String
  part_of_speech : PartOfSpeech
  relationships : List RelationRef
deriving DecidableEq

/-- Modelled from the spec: `SynSet::with_relationship` selects the
relations of the given kind. -/
def SynSet.with_relationship (ss : SynSet) (r : Relation) : List RelationRef :=
  ss.relationships.filter fun rel => decide (rel.relation = r)

/-- Modelled from the spec: the Lexical Resolver collaborator interface of
`lls_lib::wordnet::WordNet`: `senses_for(word)` (called `synsets` in the
source) and `resolve(part_of_speech, offset)`, absent on unknown key. -/
structure WordNet where
  synsets : String → List SynSet
  resolve : PartOfSpeech → Nat → Option SynSet

/-- Rust `Vec::sort` / `sort_unstable` on strings.  Both produce the unique
sorted arrangement of the multiset of strings (equal strings are
indistinguishable values, so stability cannot affect the result), modelled by
insertion sort over the lexicographic order. -/
def rust_sort (l : List String) : List String :=
  List.insertionSort (· ≤ ·) l

/-- Rust `Vec::dedup`: removes consecutive repeated elements. -/
def rust_dedup : List String → List String
  | [] => []
  | [a] => [a]
  | a :: b :: rest =>
    if a = b then rust_dedup (b :: rest) else a :: rust_dedup (b :: rest)

/-- Rust `str::replace('_', " ")` as used on lemmas before display,
written on the character list of the string. -/
def underscore_to_space (s : String) : String :=
  String.mk (s.data.map fun c => if c = '_' then ' ' else c)

/-- Union of the lemma sets of the senses of one part of speech:
`ss_pos.iter().flat_map(|ss| &ss.words)` in `render_hover`. -/
def synonym_union (ss_pos : List SynSet) : List String :=
  (ss_pos.map SynSet.words).flatten

/-- The `synonyms` vector of `render_hover` after `sort` and `dedup`
(src/main.rs lines 284-286); the queried word has not been removed yet. -/
def synonyms_sorted (ss_pos : List SynSet) : List String :=
  rust_dedup (rust_sort (synonym_union ss_pos))

/-- The sorted deduplicated synonym union with the queried word filtered
out — the `synonyms.iter().filter(|w| **w != word)` stage of `render_hover`
(src/main.rs line 290). -/
def synonyms_filtered (word : String) (ss_pos : List SynSet) : List String :=
  (synonyms_sorted ss_pos).filter fun w => decide (w ≠ word)

/-- The synonym strings actually joined into the hover: the filtered list
with underscores replaced by spaces (src/main.rs lines 288-293). -/
def synonym_items (word : String) (ss_pos : List SynSet) : List String :=
  (synonyms_filtered word ss_pos).map underscore_to_space

/-- The Synonyms block of `render_hover`: emitted when the sorted
deduplicated union — before the queried word is filtered out — is non-empty
(src/main.rs lines 287-295). -/
def synonyms_block (word : String) (ss_pos : List SynSet) : List String :=
  if (synonyms_sorted ss_pos).isEmpty then []
  else ["**Synonyms**: " ++ String.intercalate ", " (synonym_items word ss_pos)]

/-- The definitions block of `render_hover` for one part of speech: header
line plus the numbered definitions, emitted when some sense of this part of
speech exists (src/main.rs lines 269-282). -/
def defs_block (word : String) (pos : PartOfSpeech) (ss_pos : List SynSet) :
    List String :=
  let defs := ss_pos.map SynSet.definition
  if defs.isEmpty then []
  else
    ["**" ++ word ++ "** _" ++ pos.display ++ "_\n" ++
      String.intercalate "\n"
        (defs.enum.map fun p => toString (p.1 + 1) ++ ". " ++ p.2)]

/-- Raw antonym lemmas of `render_hover`: for each sense, each Antonym
relation's target is resolved and contributes its lemma set, an unresolvable
target contributing the empty set (`unwrap_or_default`, src/main.rs lines
297-309). -/
def antonym_words (wn : WordNet) (ss_pos : List SynSet) : List String :=
  (ss_pos.map fun ss =>
    ((ss.with_relationship Relation.antonym).map fun r =>
      ((wn.resolve r.part_of_speech r.synset_offset).map SynSet.words).getD
        []).flatten).flatten

/-- The `antonyms` vector after `sort` and `dedup` (src/main.rs lines
310-311); no filtering against the queried word takes place. -/
def antonyms_sorted (wn : WordNet) (ss_pos : List SynSet) : List String :=
  rust_dedup (rust_sort (antonym_words wn ss_pos))

/-- The antonym strings actually joined into the hover (src/main.rs lines
313-317). -/
def antonym_items (wn : WordNet) (ss_pos : List SynSet) : List String :=
  (antonyms_sorted wn ss_pos).map underscore_to_space

/-- The Antonyms block of `render_hover` (src/main.rs lines 312-319). -/
def antonyms_block (wn : WordNet) (ss_pos : List SynSet) : List String :=
  if (antonyms_sorted wn ss_pos).isEmpty then []
  else ["**Antonyms**: " ++ String.intercalate ", " (antonym_items wn ss_pos)]

/-- Blocks contributed by one part of speech in `render_hover`'s main loop:
definitions, synonyms, antonyms, each only when non-empty. -/
def pos_blocks (wn : WordNet) (word : String) (synsets : List SynSet)
    (pos : PartOfSpeech) : List String :=
  let ss_pos := synsets.filter fun ss => decide (ss.part_of_speech = pos)
  defs_block word pos ss_pos ++ synonyms_block word ss_pos ++
    antonyms_block wn ss_pos

/-- Full `Dict::render_hover` (src/main.rs lines 260-323): blocks collected
over the parts of speech in canonical order, joined by blank lines. -/
def render_hover (wn : WordNet) (word : String) (synsets : List SynSet) :
    String :=
  String.intercalate "\n\n"
    ((PartOfSpeech.iter.map (pos_blocks wn word synsets)).flatten)

/-- The `Dict` wrapper of the source: owns the wordnet handle. -/
structure Dict where
  wordnet : WordNet

/-- Method `Dict::hover` (src/main.rs lines 255-258). -/
def Dict.hover (d : Dict) (word : String) : String :=
  render_hover d.wordnet word (d.wordnet.synsets word)

/-- Insertion into the `BTreeMap<Relation, BTreeSet<String>>` of `all_info`:
`entry(kind).or_default().extend(ws)` — the entry for the kind is created if
missing and the words are appended to it (set semantics are applied when the
map is rendered). -/
def bt_insert (m : List (Relation × List String)) (k : Relation)
    (ws : List String) : List (Relation × List String) :=
  match m with
  | [] => [(k, ws)]
  | p :: rest =>
    if p.1 = k then (p.1, p.2 ++ ws) :: rest else p :: bt_insert rest k ws

/-- Relationship-collection loop of `all_info` (src/main.rs lines 340-348):
each relation's target is resolved and `.unwrap()`ed — an unresolvable
target panics, modelled by `none`. -/
def collect_rels (wn : WordNet) :
    List RelationRef → List (Relation × List String) →
      Option (List (Relation × List String))
  | [], m => some m
  | r :: rest, m =>
    match wn.resolve r.part_of_speech r.synset_offset with
    | none => none
    | some ss => collect_rels wn rest (bt_insert m r.relation ss.words)

/-- Rendering of the relationship map of `all_info` (src/main.rs lines
349-358): kinds in the deterministic key order, each kind's words with set
semantics (sorted, deduplicated), one line per kind. -/
def render_relationships (m : List (Relation × List String)) : String :=
  String.intercalate "\n"
    ((relKinds.filterMap fun k =>
        (m.find? fun p => decide (p.1 = k)).map fun p =>
          "**" ++ k.display ++ "**: " ++
            String.intercalate ", " (rust_dedup (rust_sort p.2))))

/-- One numbered entry of the `all_info` document (src/main.rs lines
330-367): sorted lemmas minus the queried word as the synonym line, part of
speech and definition, then the rendered relationships.  `none` models the
panic of the `.unwrap()` on a failed relation resolution. -/
def all_info_entry (wn : WordNet) (word : String) (i : Nat) (ss : SynSet) :
    Option String :=
  let sortedWords := rust_sort ss.words
  let synonyms :=
    String.intercalate ", " (sortedWords.filter fun w => decide (w ≠ word))
  (collect_rels wn ss.relationships []).map fun m =>
    "\n" ++ toString (i + 1) ++ ". _" ++ ss.part_of_speech.display ++ "_ " ++
      ss.definition ++ "\n**synonym**: " ++ synonyms ++ "\n" ++
      render_relationships m ++ "\n"

/-- Sequential writing of the numbered entries
(`for (i, synset) in synsets.into_iter().enumerate()`), concatenating the
text appended to the file; a panicking entry aborts the whole
computation. -/
def all_info_entries (wn : WordNet) (word : String) :
    Nat → List SynSet → Option String
  | _, [] => some ""
  | i, ss :: rest =>
    match all_info_entry wn word i ss with
    | none => none
    | some entry =>
      match all_info_entries wn word (i + 1) rest with
      | none => none
      | some restStr => some (entry ++ restStr)

/-- Full `Dict::all_info` (src/main.rs lines 325-370): returns the generated
file's path together with the document content written to it, or `none` when
the computation panics on an unresolvable relation target. -/
def all_info (wn : WordNet) (word : String) : Option (String × String) :=
  (all_info_entries wn word 0 (wn.synsets word)).map fun body =>
    ("/tmp/lls-" ++ word ++ ".md", "# " ++ word ++ "\n" ++ body)

/-- Result payload of a response, modelling the serialized
`serde_json::Value`: a hover document, a goto-definition location, or the
JSON null produced by serializing `None::<()>` in the shutdown handler. -/
inductive RespResult
  | hover (markdown : String)
  | location (uri : String)
  | null
deriving DecidableEq

/-- Error member of a response (`lsp_server::ResponseError`; the `data`
member is always `None` in the source and is omitted). -/
structure ResponseError where
  code : Int
  message : String
deriving DecidableEq

/-- Response message (`lsp_server::Response`). -/
structure Response where
  id : Nat
  result : Option RespResult
  error : Option ResponseError
deriving DecidableEq

/-- Messages the server sends: responses and `window/logMessage`
notifications issued through `log`. -/
inductive Outgoing
  | response (r : Response)
  | logMessage (text : String)
deriving DecidableEq

/-- Recognized request methods together with their decoded parameters; the
`other` arm is the wildcard `_` of the method dispatch. -/
inductive RequestMethod
  | hover (tdp : TextDocumentPosition)
  | gotoDefinition (tdp : TextDocumentPosition)
  | shutdown
  | other (name : String)
deriving DecidableEq

/-- Incoming messages (`lsp_server::Message`): requests, responses and
notifications. -/
inductive Message
  | request (id : Nat) (m : RequestMethod)
  | response (id : Nat)
  | notification (method : String)
deriving DecidableEq

/-- Server state: the owned dictionary handle and the shutdown flag
(src/main.rs lines 67-70). -/
structure Server where
  dict : Dict
  shutdown : Bool

/-- Outcome of handling one received message in `Server::serve`: either the
loop continues with an updated state after sending the listed messages, or
`serve` returns with `Ok(())` or `Err(…)`. -/
inductive StepResult
  | running (s : Server) (out : List Outgoing)
  | finished (result : Except String Unit)

/-- Numeric value of `lsp_server::ErrorCode::InvalidRequest as i32`
(JSON-RPC invalid request). -/
def invalidRequestCode : Int := -32600

/-- Modelled `Url::from_file_path` of the external url crate: the file
scheme applied to an absolute path. -/
def url_from_file_path (p : String) : String :=
  "file://" ++ p

/-- One iteration of the receive loop of `Server::serve` (src/main.rs lines
116-226).  `ops` and `fs` model the Unicode tables and the filesystem read
performed by `get_word`; `none` models a panic inside the handler (a failed
document open in `get_word`, or the failed `.unwrap()` of a relation
resolution inside `all_info`). -/
def serveStep (ops : CharOps)
    (fs : String → Option (List (Except Unit (List Char))))
    (s : Server) (msg : Message) : Option StepResult :=
  match msg with
  | .request id m =>
    if s.shutdown then
      some (.running s
        [.response
          { id := id, result := none,
            error := some
              { code := invalidRequestCode,
                message := "received request after shutdown" } }])
    else
      match m with
      | .hover tdp =>
        match get_word ops fs tdp with
        | none => none
        | some none =>
          some (.running s [.response { id := id, result := none, error := none }])
        | some (some w) =>
          some (.running s
            [.response
              { id := id, result := some (.hover (s.dict.hover w)),
                error := none }])
      | .gotoDefinition tdp =>
        match get_word ops fs tdp with
        | none => none
        | some none =>
          some (.running s [.response { id := id, result := none, error := none }])
        | some (some w) =>
          match all_info s.dict.wordnet w with
          | none => none
          | some fc =>
            some (.running s
              [.response
                { id := id,
                  result := some (.location (url_from_file_path fc.1)),
                  error := none }])
      | .shutdown =>
        some (.running { s with shutdown := true }
          [.response { id := id, result := some .null, error := none }])
      | .other name =>
        some (.running s [.logMessage ("Unmatched request received: " ++ name)])
  | .response id =>
    some (.running s [.logMessage ("Unmatched response received: " ++ toString id)])
  | .notification method =>
    if method == "exit" then
      if s.shutdown then some (.finished (Except.ok ()))
      else
        some (.finished
          (Except.error "Received exit notification before shutdown request"))
    else
      some (.running s
        [.logMessage ("Unmatched notification received: " ++ method)])

/-- Process exit behaviour of `main` (src/main.rs lines 235-241) applied to
the value returned by `serve`: `Ok` exits cleanly with code 0, `Err` prints
the message and exits with code 1. -/
def mainExitCode : Except String Unit → Nat
  | .ok _ => 0
  | .error _ => 1

/-- Specification-side construction for the failed-resolution invariant:
the same wordnet with every unresolvable key resolved to a sense carrying an
empty lemma set, so that a failed resolution is literally "an empty lemma
contribution". -/
def patch_wordnet (wn : WordNet) : WordNet where
  synsets := wn.synsets
  resolve := fun pos off =>
    match wn.resolve pos off with
    | some ss => some ss
    | none =>
      some { words := [], definition := "", part_of_speech := pos,
             relationships := [] }

/-- Wordnet with no entries, for exercising the session machine. -/
def emptyWordNet : WordNet where
  synsets := fun _ => []
  resolve := fun _ _ => none

/-- Dictionary handle over the empty wordnet. -/
def sampleDict : Dict :=
  { wordnet := emptyWordNet }

/-- Filesystem on which every document open fails. -/
def sampleFs : String → Option (List (Except Unit (List Char))) :=
  fun _ => none

/-- Filesystem holding one document whose single line is `cat sat`. -/
def catFs : String → Option (List (Except Unit (List Char))) :=
  fun _ => some [Except.ok ("cat sat".toList)]

/-- Filesystem holding one document whose single line fails to read. -/
def errFs : String → Option (List (Except Unit (List Char))) :=
  fun _ => some [Except.error ()]

/-- Wordnet whose entry for `x` has an antonym relation that no key
resolves, exercising the `unwrap` of `all_info`. -/
def unresolvableWordNet : WordNet where
  synsets := fun w =>
    if w = "x" then
      [{ words := ["x"], definition := "desc",
         part_of_speech := PartOfSpeech.noun,
         relationships :=
           [{ relation := Relation.antonym,
              part_of_speech := PartOfSpeech.noun, synset_offset := 5 }] }]
    else []
  resolve := fun _ _ => none

/-- Senses queried in the antonym counterexample: one noun sense of `x`
with a single antonym relation. -/
def selfAntonymSenses : List SynSet :=
  [{ words := ["x"], definition := "d",
     part_of_speech := PartOfSpeech.noun,
     relationships :=
       [{ relation := Relation.antonym,
          part_of_speech := PartOfSpeech.noun, synset_offset := 3 }] }]

/-- Wordnet on which the antonym relation of `x` resolves to a sense whose
lemma set contains the queried word `x` itself. -/
def selfAntonymWordNet : WordNet where
  synsets := fun w => if w = "x" then selfAntonymSenses else []
  resolve := fun _ _ =>
    some { words := ["x"], definition := "opp",
           part_of_speech := PartOfSpeech.noun, relationships := [] }

/-- Senses whose only lemma is the queried word itself, for the Synonyms
block boundary case. -/
def selfOnlySenses : List SynSet :=
  [{ words := ["x"], definition := "d",
     part_of_speech := PartOfSpeech.noun, relationships := [] }]

/-- The error member sent with every response produced after shutdown
(src/main.rs lines 126-130). -/
def invalid_request_error : ResponseError :=
  { code := invalidRequestCode, message := "received request after shutdown" }

/-- Auxiliary: `takeWhile` over an append splits on whether the first part
is entirely accepted. -/
theorem takeWhile_append_all (p : Char → Bool) (xs ys : List Char) :
    (xs ++ ys).takeWhile p =
      if xs.all p then xs ++ ys.takeWhile p else xs.takeWhile p := by
  induction xs with
  | nil => simp
  | cons a xs ih =>
    cases ha : p a with
    | true =>
      simp only [List.cons_append, List.takeWhile_cons, ha, List.all_cons,
        Bool.true_and, if_true, ih]
      split <;> simp [List.takeWhile_cons, ha]
    | false => simp [List.takeWhile_cons, ha]

/-- Auxiliary: `takeWhile` of an entirely accepted list is the list. -/
theorem takeWhile_of_all (p : Char → Bool) (xs : List Char)
    (h : xs.all p = true) : xs.takeWhile p = xs := by
  rw [List.takeWhile_eq_self_iff]
  intro x hx
  exact List.all_eq_true.mp h x hx

/-- Unfolding lemma: `lowerFlat` of an empty run. -/
theorem lowerFlat_nil (ops : CharOps) : lowerFlat ops [] = [] := rfl

/-- Unfolding lemma: `lowerFlat` of a run starting with `c`. -/
theorem lowerFlat_cons (ops : CharOps) (c : Char) (l : List Char) :
    lowerFlat ops (c :: l) = ops.toLowercase c ++ lowerFlat ops l := rfl

/-- Distribution of `lowerFlat` over append. -/
theorem lowerFlat_append (ops : CharOps) (a b : List Char) :
    lowerFlat ops (a ++ b) = lowerFlat ops a ++ lowerFlat ops b := by
  simp [lowerFlat]

/-- Shift invariance of the scanning loop: the loop index is only ever
compared with the cursor, so shifting both by one leaves the result
unchanged. -/
theorem getWordLoop_shift (ops : CharOps) (cursor : Nat) :
    ∀ (l : List Char) (i : Nat) (cw : List Char) (found : Bool),
      getWordLoop ops (cursor + 1) l (i + 1) cw found =
        getWordLoop ops cursor l i cw found := by
  intro l
  induction l with
  | nil => intro i cw found; rfl
  | cons c rest ih =>
    intro i cw found
    have hbeq : ((i + 1 : Nat) == cursor + 1) = (i == cursor) := by
      simp [Nat.add_right_cancel_iff]
    cases hA : ops.isAlphabetic c with
    | true =>
      simp only [getWordLoop, hA, hbeq, if_true]
      exact ih (i + 1) _ _
    | false =>
      simp only [getWordLoop, hA, hbeq, Bool.false_eq_true, if_false]
      cases found with
      | true => rfl
      | false =>
        cases hc : (i == cursor) with
        | true => rfl
        | false => simp only [if_false, Bool.false_eq_true]; exact ih (i + 1) [] false

/-- Behaviour of the scanning loop once the cursor has been reached: it
accumulates the lowercase expansions of the remaining alphabetic prefix and
returns at the first non-alphabetic character or at end of line. -/
theorem getWordLoop_found (ops : CharOps) (cursor : Nat) :
    ∀ (l : List Char) (i : Nat) (cw : List Char),
      getWordLoop ops cursor l i cw true =
        some (cw ++ lowerFlat ops (l.takeWhile ops.isAlphabetic)) := by
  intro l
  induction l with
  | nil => intro i cw; simp [getWordLoop, lowerFlat]
  | cons c rest ih =>
    intro i cw
    cases hA : ops.isAlphabetic c with
    | true =>
      simp only [getWordLoop, hA, if_true, Bool.true_or]
      rw [ih (i + 1)]
      simp [List.takeWhile_cons, hA, lowerFlat_cons, lowerFlat_append]
    | false =>
      simp [getWordLoop, hA, List.takeWhile_cons, lowerFlat]

/-- Evolution of the backwards alphabetic run when one more character is
prepended to the line: the run through index `k + 1` of `c :: l` extends the
run through index `k` of `l` with `c` exactly when the whole prefix up to the
cursor is alphabetic. -/
theorem beforeRun_cons (isA : Char → Bool) (c : Char) (l : List Char)
    (k : Nat) :
    (((c :: l).take (k + 1)).reverse.takeWhile isA).reverse =
      if (l.take k).all isA && isA c then
        c :: (((l.take k).reverse.takeWhile isA).reverse)
      else ((l.take k).reverse.takeWhile isA).reverse := by
  rw [List.take_succ_cons]
  generalize l.take k = A
  rw [List.reverse_cons, takeWhile_append_all]
  rw [List.all_reverse]
  cases hAll : A.all isA with
  | true =>
    rw [takeWhile_of_all isA A.reverse (by rw [List.all_reverse]; exact hAll)]
    cases hc : isA c with
    | true =>
      simp [List.takeWhile_cons, hc]
    | false =>
      simp [List.takeWhile_cons, hc,
        takeWhile_of_all isA A.reverse (by rw [List.all_reverse]; exact hAll)]
  | false =>
    simp

/-- Behaviour of the scanning loop from the start of the line while the
cursor (an alphabetic position) is still ahead: the result is the lowercase
folding of the maximal alphabetic run around the cursor, preceded by the
incoming accumulator exactly when the whole prefix before the cursor is
alphabetic. -/
theorem getWordLoop_before (ops : CharOps) :
    ∀ (k : Nat) (l : List Char) (cw : List Char) (hk : k < l.length),
      ops.isAlphabetic (l.get ⟨k, hk⟩) = true →
      getWordLoop ops k l 0 cw false =
        some ((if (l.take k).all ops.isAlphabetic then cw else []) ++
          lowerFlat ops (maxAlphaRun ops.isAlphabetic l k)) := by
  intro k
  induction k with
  | zero =>
    intro l cw hk halpha
    match l, hk, halpha with
    | c :: rest, hk, halpha =>
      have hc : ops.isAlphabetic c = true := halpha
      simp only [getWordLoop, hc, if_true]
      rw [show (false || ((0 : Nat) == 0)) = true from rfl]
      rw [getWordLoop_found]
      simp [maxAlphaRun, List.takeWhile_cons, hc, lowerFlat_cons,
        lowerFlat_append, List.append_assoc]
  | succ k ih =>
    intro l cw hk halpha
    match l, hk, halpha with
    | c :: rest, hk, halpha =>
      have hk2 : k < rest.length := Nat.lt_of_succ_lt_succ hk
      have halpha2 : ops.isAlphabetic (rest.get ⟨k, hk2⟩) = true := halpha
      have hbeq0 : ((0 : Nat) == k + 1) = false := rfl
      cases hc : ops.isAlphabetic c with
      | true =>
        simp only [getWordLoop, hc, if_true, hbeq0, Bool.or_false]
        rw [getWordLoop_shift]
        rw [ih rest (cw ++ ops.toLowercase c) hk2 halpha2]
        rw [maxAlphaRun, maxAlphaRun, beforeRun_cons, List.take_succ_cons,
          List.all_cons, hc, Bool.true_and, List.drop_succ_cons]
        cases hAll : (rest.take k).all ops.isAlphabetic with
        | true =>
          simp [hAll, lowerFlat_cons, lowerFlat_append, List.append_assoc]
        | false =>
          simp [hAll, lowerFlat_append]
      | false =>
        simp only [getWordLoop, hc, Bool.false_eq_true, if_false, hbeq0]
        rw [getWordLoop_shift]
        rw [ih rest [] hk2 halpha2]
        rw [maxAlphaRun, maxAlphaRun, beforeRun_cons, List.take_succ_cons,
          List.all_cons, hc, List.drop_succ_cons]
        simp [lowerFlat_append, Bool.and_false]

/-- Claim C3: for every line and every cursor offset whose character is
alphabetic, the word locator returns the maximal run of contiguous
alphabetic characters containing that index, case-folded to lowercase with
multi-character lowercase expansion. -/
theorem claim_C3_locator_returns_maximal_alphabetic_run (ops : CharOps)
    (l : List Char) (k : Nat) (hk : k < l.length)
    (halpha : ops.isAlphabetic (l.get ⟨k, hk⟩) = true) :
    get_word_line ops l k =
      some (lowerFlat ops (maxAlphaRun ops.isAlphabetic l k)) := by
  rw [get_word_line, getWordLoop_before ops k l [] hk halpha]
  simp

/-- Witness for C3: on the line `cat sat` with the cursor on the `a` of
`cat`, the locator returns exactly the run `cat`. -/
theorem claim_C3_locator_returns_maximal_alphabetic_run_witness :
    get_word_line rustCharOps ("cat sat".toList) 1 = some ("cat".toList) := by
  have h := claim_C3_locator_returns_maximal_alphabetic_run rustCharOps
    ("cat sat".toList) 1 (by decide) (by decide)
  rw [h]
  decide

/-- Claim C5 (amended): when the document opens successfully, a request for
a line beyond the document end or a line whose read failed yields "no word"
(`None`) without crashing. -/
theorem claim_C5_missing_line_or_failed_read_is_no_word (ops : CharOps)
    (fs : String → Option (List (Except Unit (List Char))))
    (ls : List (Except Unit (List Char))) (tdp : TextDocumentPosition)
    (hfs : fs tdp.uri = some ls)
    (h : ls.get? tdp.line = none ∨
      ∃ e, ls.get? tdp.line = some (Except.error e)) :
    get_word ops fs tdp = some none := by
  unfold get_word
  rw [hfs]
  rcases h with h | ⟨e, h⟩ <;> rw [List.get?_eq_getElem?] at h <;> simp [h]

/-- Witness for C5: a document whose only line fails to read yields
`Some None`. -/
theorem claim_C5_missing_line_or_failed_read_is_no_word_witness :
    get_word rustCharOps errFs
      { uri := "file:///d", line := 0, character := 5 } = some none :=
  claim_C5_missing_line_or_failed_read_is_no_word rustCharOps errFs
    [Except.error ()] { uri := "file:///d", line := 0, character := 5 }
    rfl (Or.inr ⟨(), rfl⟩)

/-- Counterexample for C5 as stated: when opening the document itself fails,
the code does not return "no word" — the `unwrap` of the open result panics
(the step is the modelled panic `none`, not `some none`). -/
theorem claim_C5_counterexample_failed_open_panics :
    get_word rustCharOps sampleFs
      { uri := "file:///d", line := 0, character := 0 } ≠ some none := by
  decide

/-- Loop lemma for lines without alphabetic characters: starting with an
empty accumulator and `found` unset, the scan returns the empty word when
the cursor lies inside the line and nothing otherwise. -/
theorem getWordLoop_no_alpha (ops : CharOps) :
    ∀ (l : List Char) (cursor : Nat),
      (∀ c ∈ l, ops.isAlphabetic c = false) →
      getWordLoop ops cursor l 0 [] false =
        if cursor < l.length then some [] else none := by
  intro l
  induction l with
  | nil => intro cursor h; simp [getWordLoop]
  | cons c rest ih =>
    intro cursor h
    have hc : ops.isAlphabetic c = false := h c (List.mem_cons_self c rest)
    cases cursor with
    | zero =>
      simp [getWordLoop, hc]
    | succ k =>
      have hbeq : ((0 : Nat) == k + 1) = false := rfl
      simp only [getWordLoop, hc, Bool.false_eq_true, if_false, hbeq]
      rw [getWordLoop_shift]
      rw [ih k fun c hm => h c (List.mem_cons_of_mem _ hm)]
      simp [Nat.succ_lt_succ_iff]

/-- Claim C7 (amended): on a line with no alphabetic character — the empty
line in particular — the word locator returns no word when the cursor is at
or beyond the end of the line, and the empty word when the cursor falls on
one of the line's (non-alphabetic) characters. -/
theorem claim_C7_no_alpha_line (ops : CharOps) (l : List Char) (cursor : Nat)
    (h : ∀ c ∈ l, ops.isAlphabetic c = false) :
    get_word_line ops l cursor =
      if cursor < l.length then some [] else none :=
  getWordLoop_no_alpha ops l cursor h

/-- Witness for C7: both branches on concrete lines — within a symbol-only
line the result is the empty word, past its end it is no word, and on the
empty line it is no word. -/
theorem claim_C7_no_alpha_line_witness :
    get_word_line rustCharOps ['!', '?'] 1 = some [] ∧
      get_word_line rustCharOps ['!', '?'] 2 = none ∧
      get_word_line rustCharOps [] 0 = none := by
  refine ⟨?_, ?_, ?_⟩
  · rw [claim_C7_no_alpha_line rustCharOps ['!', '?'] 1 (by decide)]; decide
  · rw [claim_C7_no_alpha_line rustCharOps ['!', '?'] 2 (by decide)]; decide
  · rw [claim_C7_no_alpha_line rustCharOps [] 0 (by decide)]; decide

/-- Counterexample for C7 as stated: on the line `!` (no alphabetic
character) with the cursor at offset 0, the locator does not return "no
word" — it returns the empty word. -/
theorem claim_C7_counterexample_empty_word :
    get_word_line rustCharOps ['!'] 0 = some [] ∧
      get_word_line rustCharOps ['!'] 0 ≠ none := by
  decide

/-- Loop invariant for the character shape of the result: whenever the loop
returns a word and every accumulated character is a lowercase expansion of
some alphabetic character, then every character of the returned word is
too. -/
theorem getWordLoop_chars (ops : CharOps) :
    ∀ (l : List Char) (cursor i : Nat) (cw : List Char) (found : Bool)
      (w : List Char),
      (∀ ch ∈ cw, ∃ c, ops.isAlphabetic c = true ∧ ch ∈ ops.toLowercase c) →
      getWordLoop ops cursor l i cw found = some w →
      ∀ ch ∈ w, ∃ c, ops.isAlphabetic c = true ∧ ch ∈ ops.toLowercase c := by
  intro l
  induction l with
  | nil =>
    intro cursor i cw found w hcw hw
    cases found with
    | true =>
      simp only [getWordLoop, if_true, Option.some_inj] at hw
      exact hw ▸ hcw
    | false => simp [getWordLoop] at hw
  | cons c rest ih =>
    intro cursor i cw found w hcw hw
    cases hA : ops.isAlphabetic c with
    | true =>
      rw [getWordLoop, if_pos hA] at hw
      refine ih cursor (i + 1) (cw ++ ops.toLowercase c) _ w ?_ hw
      intro ch hch
      rcases List.mem_append.mp hch with hch | hch
      · exact hcw ch hch
      · exact ⟨c, hA, hch⟩
    | false =>
      rw [getWordLoop, if_neg (by simp [hA])] at hw
      cases found with
      | true =>
        rw [if_pos rfl] at hw
        cases hw
        exact hcw
      | false =>
        cases hc : (i == cursor) with
        | true =>
          simp only [hc, Bool.false_eq_true, if_false, if_true,
            Option.some_inj] at hw
          subst hw
          intro ch hch
          cases hch
        | false =>
          simp only [hc, Bool.false_eq_true, if_false] at hw
          exact ih cursor (i + 1) [] false w (by intro ch hch; cases hch) hw

/-- Claim C10: whenever the word locator returns a word, every character of
it is a lowercase mapping of some alphabetic character (in particular the
word never contains characters the lowercase tables cannot produce), though
the word may be empty. -/
theorem claim_C10_result_chars_are_lowercased_alphabetics (ops : CharOps)
    (fs : String → Option (List (Except Unit (List Char))))
    (tdp : TextDocumentPosition) (w : String)
    (h : get_word ops fs tdp = some (some w)) :
    ∀ ch ∈ w.data, ∃ c, ops.isAlphabetic c = true ∧ ch ∈ ops.toLowercase c := by
  unfold get_word at h
  split at h
  · exact absurd h (by simp)
  · split at h
    · simp at h
    · simp at h
    · rw [Option.some_inj] at h
      rcases Option.map_eq_some'.mp h with ⟨cs, hcs, hmk⟩
      intro ch hch
      refine getWordLoop_chars ops _ tdp.character 0 [] false cs
        (by intro x hx; cases hx) hcs ch ?_
      rw [← hmk] at hch
      exact hch

/-- Witness for C10: on a document with line `cat sat` and cursor 0 the
locator returns `cat`, and its first character is a lowercase expansion of
an alphabetic character. -/
theorem claim_C10_result_chars_are_lowercased_alphabetics_witness :
    ∃ c, rustCharOps.isAlphabetic c = true ∧ 'c' ∈ rustCharOps.toLowercase c :=
  claim_C10_result_chars_are_lowercased_alphabetics rustCharOps catFs
    { uri := "file:///d", line := 0, character := 0 } "cat" (by decide)
    'c' (by decide)

/-- Claim C1: while the shutdown flag is set, every request — whatever its
method, Hover, GotoDefinition, Shutdown or other — is answered immediately
with an error response tagged invalid request and no result payload, the
state is unchanged and no handler output is produced. -/
theorem claim_C1_requests_after_shutdown_rejected (ops : CharOps)
    (fs : String → Option (List (Except Unit (List Char)))) (d : Dict)
    (id : Nat) (m : RequestMethod) :
    serveStep ops fs { dict := d, shutdown := true } (Message.request id m) =
      some (StepResult.running { dict := d, shutdown := true }
        [Outgoing.response
          { id := id, result := none,
            error := some invalid_request_error }]) := rfl

/-- Claim C2 (amended): a Shutdown request received while the session is
active replies success with the null payload and sets the shutdown flag; a
redundant Shutdown request received after shutdown is answered like every
other post-shutdown request, with the invalid-request error response, not
with success. -/
theorem claim_C2_shutdown_success_only_when_active (ops : CharOps)
    (fs : String → Option (List (Except Unit (List Char)))) (d : Dict)
    (id : Nat) :
    serveStep ops fs { dict := d, shutdown := false }
        (Message.request id RequestMethod.shutdown) =
      some (StepResult.running { dict := d, shutdown := true }
        [Outgoing.response
          { id := id, result := some RespResult.null, error := none }]) ∧
    serveStep ops fs { dict := d, shutdown := true }
        (Message.request id RequestMethod.shutdown) =
      some (StepResult.running { dict := d, shutdown := true }
        [Outgoing.response
          { id := id, result := none,
            error := some invalid_request_error }]) :=
  ⟨rfl, rfl⟩

/-- Counterexample for C2 as stated: a redundant Shutdown request after a
previous Shutdown receives the invalid-request error response, which is not
the success response with null payload the claim promises. -/
theorem claim_C2_counterexample_redundant_shutdown_errors :
    serveStep rustCharOps sampleFs { dict := sampleDict, shutdown := true }
        (Message.request 0 RequestMethod.shutdown) =
      some (StepResult.running { dict := sampleDict, shutdown := true }
        [Outgoing.response
          { id := 0, result := none,
            error := some invalid_request_error }]) ∧
    ({ id := 0, result := none,
       error := some invalid_request_error } : Response) ≠
      { id := 0, result := some RespResult.null, error := none } :=
  ⟨rfl, by decide⟩

/-- Claim C8: an Exit notification received after shutdown makes `serve`
return `Ok`, surfaced by `main` as exit code 0; received while still active
it makes `serve` return the distinguished error, surfaced by `main` as the
non-zero exit code 1 — in both cases without panicking. -/
theorem claim_C8_exit_notification_semantics (ops : CharOps)
    (fs : String → Option (List (Except Unit (List Char)))) (d : Dict) :
    serveStep ops fs { dict := d, shutdown := true }
        (Message.notification "exit") =
      some (StepResult.finished (Except.ok ())) ∧
    mainExitCode (Except.ok ()) = 0 ∧
    serveStep ops fs { dict := d, shutdown := false }
        (Message.notification "exit") =
      some (StepResult.finished
        (Except.error "Received exit notification before shutdown request")) ∧
    mainExitCode
        (Except.error "Received exit notification before shutdown request") ≠
      0 :=
  ⟨rfl, rfl, rfl, by decide⟩

/-- Elements of the deduplicated list come from the original list. -/
theorem rust_dedup_mem : ∀ (l : List String) (x : String),
    x ∈ rust_dedup l → x ∈ l
  | [], x, h => by simp [rust_dedup] at h
  | [a], x, h => by simpa [rust_dedup] using h
  | a :: b :: rest, x, h => by
    rw [rust_dedup] at h
    by_cases hab : a = b
    · rw [if_pos hab] at h
      exact List.mem_cons_of_mem a (rust_dedup_mem (b :: rest) x h)
    · rw [if_neg hab] at h
      rcases List.mem_cons.mp h with rfl | h
      · exact List.mem_cons_self x (b :: rest)
      · exact List.mem_cons_of_mem a (rust_dedup_mem (b :: rest) x h)

/-- Deduplicating a list sorted by `≤` yields a strictly increasing list. -/
theorem rust_dedup_sorted_lt : ∀ l : List String,
    l.Sorted (· ≤ ·) → (rust_dedup l).Sorted (· < ·)
  | [], _ => by simp [rust_dedup]
  | [a], _ => by simp [rust_dedup]
  | a :: b :: rest, h => by
    rw [rust_dedup]
    by_cases hab : a = b
    · rw [if_pos hab]
      exact rust_dedup_sorted_lt (b :: rest) h.of_cons
    · rw [if_neg hab]
      refine List.Pairwise.cons ?_ (rust_dedup_sorted_lt (b :: rest) h.of_cons)
      intro x hx
      have hxbr : x ∈ b :: rest := rust_dedup_mem (b :: rest) x hx
      have hab2 : a < b :=
        lt_of_le_of_ne
          (List.rel_of_sorted_cons h b (List.mem_cons_self b rest)) hab
      have hbx : b ≤ x := by
        rcases List.mem_cons.mp hxbr with rfl | hxr
        · exact le_refl x
        · exact List.rel_of_sorted_cons h.of_cons x hxr
      exact lt_of_lt_of_le hab2 hbx

/-- Deduplication returns the empty list only on the empty list. -/
theorem rust_dedup_eq_nil_iff : ∀ l : List String, rust_dedup l = [] ↔ l = []
  | [] => by simp [rust_dedup]
  | [a] => by simp [rust_dedup]
  | a :: b :: rest => by
    rw [rust_dedup]
    by_cases hab : a = b
    · rw [if_pos hab]
      rw [rust_dedup_eq_nil_iff (b :: rest)]
      simp
    · rw [if_neg hab]
      simp

/-- The sorting stage is a permutation, so it returns the empty list only on
the empty list. -/
theorem rust_sort_eq_nil_iff (l : List String) : rust_sort l = [] ↔ l = [] := by
  constructor
  · intro h
    have hp := List.perm_insertionSort (· ≤ ·) l
    rw [rust_sort] at h
    rw [h] at hp
    exact hp.symm.eq_nil
  · intro h
    subst h
    rfl

/-- The sorted deduplicated synonym union is strictly sorted. -/
theorem synonyms_sorted_strict (ss_pos : List SynSet) :
    (synonyms_sorted ss_pos).Sorted (· < ·) :=
  rust_dedup_sorted_lt _ (List.sorted_insertionSort (· ≤ ·) _)

/-- The sorted deduplicated antonym list is strictly sorted. -/
theorem antonyms_sorted_strict (wn : WordNet) (ss_pos : List SynSet) :
    (antonyms_sorted wn ss_pos).Sorted (· < ·) :=
  rust_dedup_sorted_lt _ (List.sorted_insertionSort (· ≤ ·) _)

/-- Claim C6 (amended): before the underscore-to-space replacement, the
synonym list joined into the hover excludes the literal queried word, is
strictly sorted ascending (hence deduplicated and sorted), and the antonym
list is likewise strictly sorted ascending — but the antonym list is not
filtered against the queried word (see the counterexample). -/
theorem claim_C6_synonyms_exclude_word_lists_sorted_dedup (wn : WordNet)
    (word : String) (ss_pos : List SynSet) :
    word ∉ synonyms_filtered word ss_pos ∧
    (synonyms_filtered word ss_pos).Sorted (· ≤ ·) ∧
    (synonyms_filtered word ss_pos).Nodup ∧
    (antonyms_sorted wn ss_pos).Sorted (· ≤ ·) ∧
    (antonyms_sorted wn ss_pos).Nodup := by
  refine ⟨?_, ?_, ?_, ?_, ?_⟩
  · intro hmem
    rcases List.mem_filter.mp hmem with ⟨-, hne⟩
    exact (of_decide_eq_true hne) rfl
  · exact ((synonyms_sorted_strict ss_pos).filter _).imp le_of_lt
  · exact ((synonyms_sorted_strict ss_pos).filter _).nodup
  · exact (antonyms_sorted_strict wn ss_pos).imp le_of_lt
  · exact (antonyms_sorted_strict wn ss_pos).nodup

/-- Counterexample for C6 as stated: the antonym stage has no filter
against the queried word, so a hover for `x` whose antonym relation
resolves to a sense containing the lemma `x` renders an Antonyms list
containing the literal queried word. -/
theorem claim_C6_counterexample_antonyms_contain_queried_word :
    "x" ∈ antonym_items selfAntonymWordNet selfAntonymSenses ∧
    render_hover selfAntonymWordNet "x" (selfAntonymWordNet.synsets "x") =
      "**x** _noun_\n1. d\n\n**Synonyms**: \n\n**Antonyms**: x" := by
  constructor
  · decide
  · rfl

/-- Claim C9 (amended): for a part of speech, the Synonyms block is emitted
iff the lemma union over that part of speech's senses is non-empty — the
emptiness test happens before the queried word is excluded, so a block (with
empty content) is still emitted when every lemma equals the queried word. -/
theorem claim_C9_synonyms_block_iff_some_lemma (word : String)
    (synsets : List SynSet) (pos : PartOfSpeech) :
    synonyms_block word
        (synsets.filter fun ss => decide (ss.part_of_speech = pos)) ≠ [] ↔
      ∃ ss ∈ synsets, ss.part_of_speech = pos ∧ ss.words ≠ [] := by
  have hiff : (synonyms_sorted
      (synsets.filter fun ss => decide (ss.part_of_speech = pos))).isEmpty =
        true ↔
      ∀ ss ∈ synsets, ss.part_of_speech = pos → ss.words = [] := by
    rw [List.isEmpty_iff, synonyms_sorted, rust_dedup_eq_nil_iff,
      rust_sort_eq_nil_iff, synonym_union, List.flatten_eq_nil_iff]
    constructor
    · intro h ss hss hpos
      exact h ss.words
        (List.mem_map_of_mem _ (List.mem_filter.mpr ⟨hss, by simp [hpos]⟩))
    · intro h w hw
      rcases List.mem_map.mp hw with ⟨ss, hssL, rfl⟩
      rcases List.mem_filter.mp hssL with ⟨hss, hpos⟩
      exact h ss hss (of_decide_eq_true hpos)
  have hiff2 : ¬((synonyms_sorted
      (synsets.filter fun ss => decide (ss.part_of_speech = pos))).isEmpty =
        true) ↔
      ∃ ss ∈ synsets, ss.part_of_speech = pos ∧ ss.words ≠ [] := by
    rw [hiff]
    push_neg
    rfl
  by_cases hE : (synonyms_sorted
      (synsets.filter fun ss => decide (ss.part_of_speech = pos))).isEmpty =
        true
  · rw [synonyms_block, if_pos hE]
    constructor
    · intro h
      exact absurd rfl h
    · intro h
      exact absurd hE (hiff2.mpr h)
  · rw [synonyms_block, if_neg hE]
    constructor
    · intro _
      exact hiff2.mp hE
    · intro _
      simp

/-- Counterexample for C9 as stated: when the only lemma equals the queried
word, the claim promises no Synonyms block, but the code still emits one —
with empty content, because the emptiness check precedes the exclusion of
the queried word.  The full hover output shows the dangling block. -/
theorem claim_C9_counterexample_dangling_synonyms_block :
    synonyms_block "x" selfOnlySenses = ["**Synonyms**: "] ∧
    synonym_items "x" selfOnlySenses = [] ∧
    render_hover emptyWordNet "x" selfOnlySenses =
      "**x** _noun_\n1. d\n\n**Synonyms**: " := by
  refine ⟨rfl, by decide, rfl⟩

/-- The lemma contribution extracted from a resolved relation target is the
same over the patched wordnet: a failing key contributes the empty lemma
set either way. -/
theorem resolve_getD_patch (wn : WordNet) (p : PartOfSpeech) (o : Nat) :
    (((patch_wordnet wn).resolve p o).map SynSet.words).getD [] =
      ((wn.resolve p o).map SynSet.words).getD [] := by
  simp only [patch_wordnet]
  cases h : wn.resolve p o <;> simp [h]

/-- Raw antonym collection is unchanged by patching failing keys to empty
senses. -/
theorem antonym_words_patch (wn : WordNet) (ss_pos : List SynSet) :
    antonym_words (patch_wordnet wn) ss_pos = antonym_words wn ss_pos := by
  unfold antonym_words
  simp only [resolve_getD_patch]

/-- Hover rendering is unchanged by patching failing keys to empty senses:
a failed antonym resolution contributes exactly the empty lemma set. -/
theorem render_hover_patch (wn : WordNet) (word : String)
    (synsets : List SynSet) :
    render_hover (patch_wordnet wn) word synsets =
      render_hover wn word synsets := by
  unfold render_hover pos_blocks antonyms_block antonym_items antonyms_sorted
  simp only [antonym_words_patch]

/-- A single unresolvable relation makes the relationship-collection loop of
`all_info` panic, whatever the accumulated map. -/
theorem collect_rels_none (wn : WordNet) :
    ∀ (rels : List RelationRef) (m : List (Relation × List String)),
      (∃ r ∈ rels, wn.resolve r.part_of_speech r.synset_offset = none) →
      collect_rels wn rels m = none
  | [], m, h => absurd h (by simp)
  | r :: rest, m, h => by
    rcases h with ⟨r2, hr2, hnone⟩
    rcases List.mem_cons.mp hr2 with rfl | hr2
    · simp [collect_rels, hnone]
    · cases hres : wn.resolve r.part_of_speech r.synset_offset with
      | none => simp [collect_rels, hres]
      | some ss =>
        simp only [collect_rels, hres]
        exact collect_rels_none wn rest _ ⟨r2, hr2, hnone⟩

/-- A sense entry of `all_info` panics whenever one of its relations has an
unresolvable target. -/
theorem all_info_entry_none (wn : WordNet) (word : String) (i : Nat)
    (ss : SynSet)
    (h : ∃ r ∈ ss.relationships,
      wn.resolve r.part_of_speech r.synset_offset = none) :
    all_info_entry wn word i ss = none := by
  unfold all_info_entry
  rw [collect_rels_none wn ss.relationships [] h]
  rfl

/-- The entry-writing loop of `all_info` panics whenever some sense has an
unresolvable relation target. -/
theorem all_info_entries_none (wn : WordNet) (word : String) :
    ∀ (i : Nat) (ssl : List SynSet),
      (∃ ss ∈ ssl, ∃ r ∈ ss.relationships,
        wn.resolve r.part_of_speech r.synset_offset = none) →
      all_info_entries wn word i ssl = none
  | _, [], h => absurd h (by simp)
  | i, ss :: rest, h => by
    rcases h with ⟨ss2, hss2, hfail⟩
    rcases List.mem_cons.mp hss2 with rfl | hss2
    · simp [all_info_entries, all_info_entry_none wn word i ss2 hfail]
    · cases hE : all_info_entry wn word i ss with
      | none => simp [all_info_entries, hE]
      | some e =>
        have hrest := all_info_entries_none wn word (i + 1) rest
          ⟨ss2, hss2, hfail⟩
        simp [all_info_entries, hE, hrest]

/-- Claim C4 (amended): the hover renderer treats every failed relation
resolution as an empty lemma contribution and never surfaces an error —
rendering over any wordnet equals rendering over the wordnet whose failing
keys are patched to empty senses; the full-reference renderer `all_info`,
however, panics (models as `none`) as soon as any relation target of any
rendered sense is unresolvable. -/
theorem claim_C4_hover_degrades_all_info_panics :
    (∀ (wn : WordNet) (word : String) (synsets : List SynSet),
      render_hover (patch_wordnet wn) word synsets =
        render_hover wn word synsets) ∧
    (∀ (wn : WordNet) (word : String),
      (∃ ss ∈ wn.synsets word, ∃ r ∈ ss.relationships,
        wn.resolve r.part_of_speech r.synset_offset = none) →
      all_info wn word = none) := by
  constructor
  · exact render_hover_patch
  · intro wn word h
    unfold all_info
    rw [all_info_entries_none wn word 0 (wn.synsets word) h]
    rfl

/-- Witness for C4 (amended) at a concrete wordnet whose only relation
target is unresolvable. -/
theorem claim_C4_hover_degrades_all_info_panics_witness :
    render_hover (patch_wordnet unresolvableWordNet) "x"
        (unresolvableWordNet.synsets "x") =
      render_hover unresolvableWordNet "x" (unresolvableWordNet.synsets "x") ∧
    all_info unresolvableWordNet "x" = none := by
  refine ⟨claim_C4_hover_degrades_all_info_panics.1 unresolvableWordNet "x" _,
    claim_C4_hover_degrades_all_info_panics.2 unresolvableWordNet "x" ?_⟩
  decide

/-- Counterexample for C4 as stated: the full-reference renderer does not
degrade an unresolvable relation target to an empty contribution — it
panics, modelled by the `none` result. -/
theorem claim_C4_counterexample_all_info_unwrap_panics :
    all_info unresolvableWordNet "x" = none := by
  decide
